import Mathlib

/-!
Shallow embedding of `src/blackjack.py` (console blackjack).

`Card`, `Hand.add_card` and the scoring recomputation are translated from the
source line by line; the controller methods (`instant_win`, `player_plays`,
`dealer_plays`, and the constructor's deal-then-play sequence) are modelled as
pure functions over an explicit deck (list of cards to be drawn, in draw
order) and an explicit list of player move strings.  Network draws that the
source would perform on an exhausted deck, and move prompts past the end of
the supplied move list, are modelled as `none`.  Win/lose notifications sent
to the view are collected in an `Outcome` list, in invocation order.
-/

/-- Translation of the `Card` dataclass: `value`, `suit`, `code` strings. -/
structure Card where
  value : String
  suit : String
  code : String
deriving DecidableEq

/-- The nine numeric rank strings `['2', ..., '10']` from `Hand.add_card`. -/
def pipValues : List String := ["2", "3", "4", "5", "6", "7", "8", "9", "10"]

/-- The face rank strings `['JACK', 'QUEEN', 'KING']` from `Hand.add_card`. -/
def faceValues : List String := ["JACK", "QUEEN", "KING"]

/-- `int(i.value)` as applied by `Hand.add_card`, which only ever calls it on
members of `pipValues`; other strings are mapped to 0 (they never reach this
call in the source). -/
def pipValue (v : String) : Int :=
  if v = "2" then 2 else if v = "3" then 3 else if v = "4" then 4
  else if v = "5" then 5 else if v = "6" then 6 else if v = "7" then 7
  else if v = "8" then 8 else if v = "9" then 9 else if v = "10" then 10 else 0

/-- One iteration of the first `for` loop of `Hand.add_card`: the three
independent `if` statements updating `new_score` and `has_aces`. -/
def scanCard (acc : Int × Bool) (c : Card) : Int × Bool :=
  let s1 := if c.value ∈ pipValues then acc.1 + pipValue c.value else acc.1
  let s2 := if c.value ∈ faceValues then s1 + 10 else s1
  if c.value = "ACE" then (s2 + 11, true) else (s2, acc.2)

/-- The second `for` loop of `Hand.add_card`: for each card in draw order,
subtract 10 if it is an ACE, then `break` as soon as the total is ≤ 21. -/
def reduceAces : Int → List Card → Int
  | s, [] => s
  | s, c :: rest =>
    let s2 := if c.value = "ACE" then s - 10 else s
    if s2 ≤ 21 then s2 else reduceAces s2 rest

/-- The full score recomputation in `Hand.add_card`: scan all cards for
`new_score` and `has_aces`, then run the ace-reduction loop when
`has_aces and new_score > 21`. -/
def computeScore (cards : List Card) : Int :=
  let t := cards.foldl scanCard (0, false)
  if t.2 ∧ t.1 > 21 then reduceAces t.1 cards else t.1

/-- Translation of the `Hand` class: card list plus stored score. -/
structure Hand where
  cards : List Card
  score : Int
deriving DecidableEq

/-- `Hand.__init__`: empty card list, score 0. -/
def Hand.empty : Hand := { cards := [], score := 0 }

/-- `Hand.add_card`: append the card, then recompute and store the score. -/
def Hand.add_card (h : Hand) (c : Card) : Hand :=
  let cards := h.cards ++ [c]
  { cards := cards, score := computeScore cards }

/-- The hand obtained from a fresh `Hand()` by adding the given cards in
order with `add_card`. -/
def handOf (cards : List Card) : Hand := cards.foldl Hand.add_card Hand.empty

/-- A terminal notification sent to the view: `player_won` or `player_lost`. -/
inductive Outcome where
  | playerWon
  | playerLost
deriving DecidableEq

/-- The `while` loop of `BlackjackController.dealer_plays`: while the dealer
score is below 21 and below the player score, draw a card into the dealer
hand.  Returns the final dealer hand and the remaining deck; `none` when the
loop would draw from an exhausted deck. -/
def dealerDraw (ps : Int) : Hand → List Card → Option (Hand × List Card)
  | dealer, [] =>
    if dealer.score < 21 ∧ dealer.score < ps then none else some (dealer, [])
  | dealer, c :: cs =>
    if dealer.score < 21 ∧ dealer.score < ps then
      dealerDraw ps (dealer.add_card c) cs
    else some (dealer, c :: cs)

/-- `BlackjackController.dealer_plays`: run the draw loop, then the two
post-loop checks `score > 21` (player won) and `21 >= score > player score`
(player lost), collecting invoked notifications in order. -/
def dealer_plays (dealer : Hand) (playerScore : Int) (deck : List Card) :
    Option (Hand × List Card × List Outcome) :=
  match dealerDraw playerScore dealer deck with
  | none => none
  | some (d, rest) =>
    some (d, rest,
      (if d.score > 21 then [Outcome.playerWon] else []) ++
      (if 21 ≥ d.score ∧ d.score > playerScore then [Outcome.playerLost] else []))

/-- `BlackjackController.player_plays`: the `while True` loop.  Each
iteration first checks `score > 21` (player lost, break) then `score == 21`
(player won, break); otherwise it consumes the next move, drawing a card on
`"H"`, breaking on `"S"`, and re-looping on anything else.  Returns the final
player hand, remaining deck, remaining moves and invoked notifications;
`none` when the loop would consume a missing move or draw from an exhausted
deck.  The score checks are repeated in both list patterns because the source
performs them before each prompt. -/
def player_plays : Hand → List Card → List String →
    Option (Hand × List Card × List String × List Outcome)
  | player, deck, [] =>
    if player.score > 21 then some (player, deck, [], [Outcome.playerLost])
    else if player.score = 21 then some (player, deck, [], [Outcome.playerWon])
    else none
  | player, deck, m :: ms =>
    if player.score > 21 then
      some (player, deck, m :: ms, [Outcome.playerLost])
    else if player.score = 21 then
      some (player, deck, m :: ms, [Outcome.playerWon])
    else if m = "H" then
      match deck with
      | [] => none
      | c :: cs => player_plays (player.add_card c) cs ms
    else if m = "S" then some (player, deck, ms, [])
    else player_plays player deck ms

/-- `BlackjackController.__init__` after shuffling: deal two rounds of
player-then-dealer draws, run `instant_win`, then `player_plays` when the
player score is below 21, then `dealer_plays` when it still is.  Returns the
final player hand, dealer hand and notifications in invocation order. -/
def newGame (deck : List Card) (moves : List String) :
    Option (Hand × Hand × List Outcome) :=
  match deck with
  | p1 :: d1 :: p2 :: d2 :: rest =>
    let player0 := Hand.empty.add_card p1
    let dealer0 := Hand.empty.add_card d1
    let player := player0.add_card p2
    let dealer := dealer0.add_card d2
    let instantOut := if player.score = 21 then [Outcome.playerWon] else []
    if player.score < 21 then
      match player_plays player rest moves with
      | none => none
      | some (player2, deck2, _, out1) =>
        if player2.score < 21 then
          match dealer_plays dealer player2.score deck2 with
          | none => none
          | some (dealer2, _, out2) =>
            some (player2, dealer2, instantOut ++ out1 ++ out2)
        else some (player2, dealer, instantOut ++ out1)
    else some (player, dealer, instantOut)
  | _ => none

/-! ### Derived quantities used to analyse the scoring algorithm -/

/-- Blackjack value of a rank string: numeric ranks their face value, the
three face ranks 10, ACE 11 (before any reduction), anything else 0. -/
def blackjackValue (v : String) : Int :=
  if v ∈ pipValues then pipValue v
  else if v ∈ faceValues then 10
  else if v = "ACE" then 11 else 0

/-- Pre-reduction total of a card list: the sum of the blackjack values. -/
def handTotal (cards : List Card) : Int :=
  (cards.map (fun c => blackjackValue c.value)).sum

/-- Whether some card of the list is an ACE (the `has_aces` flag). -/
def hasAce (cards : List Card) : Bool :=
  cards.any (fun c => decide (c.value = "ACE"))

/-- Number of ACE cards in the list. -/
def countAces (cards : List Card) : Nat :=
  cards.countP (fun c => decide (c.value = "ACE"))

/-- Reduction loop abstracted to the ace count: subtract 10 up to `n` times,
stopping as soon as the running total is ≤ 21. -/
def reduceAcesCount (s : Int) : Nat → Int
  | 0 => s
  | n + 1 => if s ≤ 21 then s else reduceAcesCount (s - 10) n

/-! ### Basic facts about the rank lists and `scanCard` -/

theorem mem_pip_not_face {v : String} (h : v ∈ pipValues) : v ∉ faceValues := by
  simp only [pipValues, List.mem_cons, List.not_mem_nil, or_false] at h
  rcases h with rfl | rfl | rfl | rfl | rfl | rfl | rfl | rfl | rfl <;> decide

theorem mem_pip_ne_ace {v : String} (h : v ∈ pipValues) : v ≠ "ACE" := by
  simp only [pipValues, List.mem_cons, List.not_mem_nil, or_false] at h
  rcases h with rfl | rfl | rfl | rfl | rfl | rfl | rfl | rfl | rfl <;> decide

theorem mem_face_ne_ace {v : String} (h : v ∈ faceValues) : v ≠ "ACE" := by
  simp only [faceValues, List.mem_cons, List.not_mem_nil, or_false] at h
  rcases h with rfl | rfl | rfl <;> decide

theorem scanCard_eq (acc : Int × Bool) (c : Card) :
    scanCard acc c =
      (acc.1 + blackjackValue c.value, acc.2 || decide (c.value = "ACE")) := by
  by_cases hp : c.value ∈ pipValues
  · have h1 := mem_pip_not_face hp
    have h2 := mem_pip_ne_ace hp
    simp [scanCard, blackjackValue, hp, h1, h2]
  · by_cases hf : c.value ∈ faceValues
    · have h2 := mem_face_ne_ace hf
      simp [scanCard, blackjackValue, hp, hf, h2]
    · by_cases ha : c.value = "ACE"
      · have hpA : "ACE" ∉ pipValues := by decide
        have hfA : "ACE" ∉ faceValues := by decide
        simp [scanCard, blackjackValue, ha, hpA, hfA]
      · simp [scanCard, blackjackValue, hp, hf, ha]

theorem foldl_scanCard (cards : List Card) :
    ∀ s a, cards.foldl scanCard (s, a) =
      (s + handTotal cards, a || hasAce cards) := by
  induction cards with
  | nil => intro s a; simp [handTotal, hasAce]
  | cons c rest ih =>
    intro s a
    simp only [List.foldl_cons, scanCard_eq, ih, handTotal, hasAce,
      List.map_cons, List.sum_cons, List.any_cons, Prod.mk.injEq]
    exact ⟨by ring, by rw [Bool.or_assoc]⟩

theorem computeScore_eq (cards : List Card) :
    computeScore cards =
      if hasAce cards ∧ handTotal cards > 21 then
        reduceAces (handTotal cards) cards
      else handTotal cards := by
  unfold computeScore
  rw [show ((0 : Int), false) = ((0 : Int), (false : Bool)) from rfl,
    foldl_scanCard]
  simp

/-! ### Hands built by repeated `add_card` -/

theorem foldl_add_card_cards (cards : List Card) :
    ∀ h : Hand, (cards.foldl Hand.add_card h).cards = h.cards ++ cards := by
  induction cards with
  | nil => intro h; simp
  | cons c rest ih =>
    intro h
    simp [List.foldl_cons, ih, Hand.add_card]

theorem handOf_cards (cards : List Card) : (handOf cards).cards = cards := by
  simpa [handOf, Hand.empty] using foldl_add_card_cards cards Hand.empty

theorem foldl_add_card_score (cards : List Card) (hne : cards ≠ []) :
    ∀ h : Hand,
      (cards.foldl Hand.add_card h).score = computeScore (h.cards ++ cards) := by
  induction cards with
  | nil => exact absurd rfl hne
  | cons c rest ih =>
    intro h
    rcases Decidable.em (rest = []) with hr | hr
    · subst hr
      simp [Hand.add_card]
    · simp only [List.foldl_cons, ih hr, Hand.add_card, List.append_assoc,
        List.singleton_append]

theorem handOf_score (cards : List Card) :
    (handOf cards).score = computeScore cards := by
  rcases Decidable.em (cards = []) with h | h
  · subst h
    simp [handOf, Hand.empty, computeScore]
  · simpa [handOf, Hand.empty] using foldl_add_card_score cards h Hand.empty

/-! ### The ace-reduction loop -/

theorem reduceAcesCount_of_le {s : Int} (h : s ≤ 21) :
    ∀ n, reduceAcesCount s n = s := by
  intro n
  cases n with
  | zero => rfl
  | succ n => simp [reduceAcesCount, h]

/-- With the loop entered on a total above 21, only the number of aces in the
list matters: the checks at non-ace cards never fire first. -/
theorem reduceAces_eq_count (cards : List Card) :
    ∀ s : Int, 21 < s → reduceAces s cards = reduceAcesCount s (countAces cards) := by
  induction cards with
  | nil => intro s _; simp [reduceAces, countAces, reduceAcesCount]
  | cons c rest ih =>
    intro s hs
    by_cases hc : c.value = "ACE"
    · have hcount : countAces (c :: rest) = countAces rest + 1 := by
        simp [countAces, List.countP_cons, hc]
      rw [hcount]
      simp only [reduceAces, hc, if_pos]
      rw [show reduceAcesCount s (countAces rest + 1) =
          reduceAcesCount (s - 10) (countAces rest) by
        simp [reduceAcesCount, not_le.mpr hs]]
      by_cases hle : s - 10 ≤ 21
      · simp [hle, reduceAcesCount_of_le hle]
      · rw [if_neg hle, ih (s - 10) (by omega)]
    · have hcount : countAces (c :: rest) = countAces rest := by
        simp [countAces, List.countP_cons, hc]
      rw [hcount]
      simp only [reduceAces, hc, if_neg, ite_false]
      rw [if_neg (by omega), ih s hs]

/-- Closed form of the count-based reduction: subtract 10 exactly as many
times as needed to reach ≤ 21, capped at `n`. -/
theorem reduceAcesCount_min (n : Nat) :
    ∀ s : Int, 21 < s →
      reduceAcesCount s n = s - 10 * ((min (((s - 12) / 10).toNat) n : Nat) : Int) := by
  induction n with
  | zero => intro s hs; simp [reduceAcesCount]
  | succ n ih =>
    intro s hs
    rw [show reduceAcesCount s (n + 1) = reduceAcesCount (s - 10) n by
      simp [reduceAcesCount, not_le.mpr hs]]
    by_cases hle : s - 10 ≤ 21
    · rw [reduceAcesCount_of_le hle n]
      have hq : ((s - 12) / 10).toNat = 1 := by omega
      rw [hq]
      have hm : min 1 (n + 1) = 1 := by omega
      rw [hm]
      omega
    · rw [ih (s - 10) (by omega)]
      have hq : ((s - 12) / 10).toNat = ((s - 10 - 12) / 10).toNat + 1 := by omega
      rw [hq]
      rcases le_total (((s - 10 - 12) / 10).toNat) n with hmn | hmn
      · rw [min_eq_left hmn, min_eq_left (by omega)]
        push_cast
        ring
      · rw [min_eq_right hmn, min_eq_right (by omega)]
        push_cast
        ring

/-- Every value produced by the reduction loop entered above 21 stays above
11: a subtraction only happens while the running total exceeds 21. -/
theorem reduceAces_gt_eleven (cards : List Card) :
    ∀ s : Int, 21 < s → 11 < reduceAces s cards := by
  induction cards with
  | nil => intro s hs; simpa [reduceAces] using by omega
  | cons c rest ih =>
    intro s hs
    simp only [reduceAces]
    by_cases hc : c.value = "ACE"
    · simp only [hc, if_pos]
      by_cases hle : s - 10 ≤ 21
      · simp only [if_pos hle]; omega
      · simp only [if_neg hle]
        exact ih (s - 10) (by omega)
    · simp only [hc, ite_false]
      by_cases hle : s ≤ 21
      · omega
      · simp only [if_neg hle]
        exact ih s hs

/-! ### Totals, ace flags and counts under append and permutation -/

theorem handTotal_append (l1 l2 : List Card) :
    handTotal (l1 ++ l2) = handTotal l1 + handTotal l2 := by
  simp [handTotal]

theorem hasAce_append (l1 l2 : List Card) :
    hasAce (l1 ++ l2) = (hasAce l1 || hasAce l2) := by
  simp [hasAce]

theorem countAces_append (l1 l2 : List Card) :
    countAces (l1 ++ l2) = countAces l1 + countAces l2 := by
  simp [countAces, List.countP_append]

theorem countAces_eq_zero {l : List Card} (h : ∀ c ∈ l, c.value ≠ "ACE") :
    countAces l = 0 := by
  simp only [countAces, List.countP_eq_zero]
  intro c hc
  simpa using h c hc

theorem hasAce_eq_false {l : List Card} (h : ∀ c ∈ l, c.value ≠ "ACE") :
    hasAce l = false := by
  simp only [hasAce, List.any_eq_false]
  intro c hc
  simpa using h c hc

theorem hasAce_iff_countAces {l : List Card} :
    hasAce l = true ↔ 0 < countAces l := by
  simp [hasAce, countAces, List.any_eq_true, List.countP_pos_iff]

/-! ### The dealer draw loop -/

theorem dealerDraw_post (ps : Int) (deck : List Card) :
    ∀ dealer d rest, dealerDraw ps dealer deck = some (d, rest) →
      ¬(d.score < 21 ∧ d.score < ps) := by
  induction deck with
  | nil =>
    intro dealer d rest h
    by_cases hc : dealer.score < 21 ∧ dealer.score < ps
    · simp [dealerDraw, hc] at h
    · simp only [dealerDraw, if_neg hc, Option.some.injEq, Prod.mk.injEq] at h
      obtain ⟨rfl, -⟩ := h
      exact hc
  | cons c cs ih =>
    intro dealer d rest h
    by_cases hc : dealer.score < 21 ∧ dealer.score < ps
    · rw [show dealerDraw ps dealer (c :: cs) =
          dealerDraw ps (dealer.add_card c) cs by simp [dealerDraw, hc]] at h
      exact ih (dealer.add_card c) d rest h
    · simp only [dealerDraw, if_neg hc, Option.some.injEq, Prod.mk.injEq] at h
      obtain ⟨rfl, -⟩ := h
      exact hc

/-! ### Score bounds -/

theorem blackjackValue_nonneg (v : String) : 0 ≤ blackjackValue v := by
  unfold blackjackValue pipValue
  split_ifs <;> omega

theorem handTotal_nonneg (cards : List Card) : 0 ≤ handTotal cards := by
  unfold handTotal
  apply List.sum_nonneg
  intro x hx
  simp only [List.mem_map] at hx
  obtain ⟨c, -, rfl⟩ := hx
  exact blackjackValue_nonneg c.value

theorem computeScore_nonneg (cards : List Card) : 0 ≤ computeScore cards := by
  rw [computeScore_eq]
  by_cases h : hasAce cards = true ∧ handTotal cards > 21
  · rw [if_pos h]
    have := reduceAces_gt_eleven cards (handTotal cards) h.2
    omega
  · rw [if_neg h]
    exact handTotal_nonneg cards

/-! ### Concrete cards used as witnesses -/

def aceOfSpades : Card := { value := "ACE", suit := "SPADES", code := "AS" }

def aceOfHearts : Card := { value := "ACE", suit := "HEARTS", code := "AH" }

def tenOfSpades : Card := { value := "10", suit := "SPADES", code := "10S" }

def sixOfSpades : Card := { value := "6", suit := "SPADES", code := "6S" }

def fiveOfSpades : Card := { value := "5", suit := "SPADES", code := "5S" }

def kingOfHearts : Card := { value := "KING", suit := "HEARTS", code := "KH" }

def twoOfClubs : Card := { value := "2", suit := "CLUBS", code := "2C" }

def jokerCard : Card := { value := "JOKER", suit := "NONE", code := "JK" }

/-- Dealer hand holding ten and six: score 16. -/
def dealerSixteen : Hand := handOf [tenOfSpades, sixOfSpades]

/-- The same dealer hand after drawing an ace: score 17. -/
def dealerSeventeen : Hand := handOf [tenOfSpades, sixOfSpades, aceOfSpades]

/-- Five fives: score 25, a busted player hand. -/
def fiveFivesList : List Card :=
  [fiveOfSpades, fiveOfSpades, fiveOfSpades, fiveOfSpades, fiveOfSpades]

/-! ### Claim theorems: hand scoring -/

/-- C1 (counterexample): contrary to the claim, the reduction pass is not
limited to one ace: the hand ACE, ACE, 10 scores 12, not the claimed 22. -/
theorem single_ace_reduction_counterexample :
    (handOf [aceOfSpades, aceOfHearts, tenOfSpades]).score = 12 ∧
    (handOf [aceOfSpades, aceOfHearts, tenOfSpades]).score ≠ 22 := by
  decide

/-- C1 (amended): the reduction pass subtracts 10 at each ACE it encounters
in draw order and stops as soon as the total is ≤ 21, so it soft-reduces as
many aces as needed to reach ≤ 21, capped at the number of aces present; with
pre-reduction total `s > 21` the result is `s` minus 10 times that number. -/
theorem reduction_pass_reduces_as_many_aces_as_needed (s : Int)
    (cards : List Card) (h : 21 < s) :
    reduceAces s cards =
      s - 10 * ((min (((s - 12) / 10).toNat) (countAces cards) : Nat) : Int) := by
  rw [reduceAces_eq_count cards s h, reduceAcesCount_min (countAces cards) s h]

/-- C1 (witness): on ACE, ACE, 10 the pre-reduction total 32 is reduced by
both aces down to 12. -/
theorem reduction_pass_witness :
    (21 : Int) < 32 ∧
    reduceAces 32 [aceOfSpades, aceOfHearts, tenOfSpades] =
      32 - 10 * ((min ((((32 : Int) - 12) / 10).toNat)
        (countAces [aceOfSpades, aceOfHearts, tenOfSpades]) : Nat) : Int) :=
  ⟨by decide,
    reduction_pass_reduces_as_many_aces_as_needed 32
      [aceOfSpades, aceOfHearts, tenOfSpades] (by decide)⟩

/-- C6: a hand built from standard non-ace cards scores the sum of their
blackjack values (numeric ranks their face value, JACK/QUEEN/KING ten). -/
theorem hand_score_no_ace (cards : List Card)
    (h : ∀ c ∈ cards, c.value ∈ pipValues ∨ c.value ∈ faceValues) :
    (handOf cards).score = handTotal cards := by
  have hne : ∀ c ∈ cards, c.value ≠ "ACE" := fun c hc =>
    (h c hc).elim mem_pip_ne_ace mem_face_ne_ace
  rw [handOf_score, computeScore_eq,
    if_neg (by simp [hasAce_eq_false hne])]

/-- C6 (witness): ten plus king scores 20, their summed blackjack values. -/
theorem hand_score_no_ace_witness :
    (∀ c ∈ [tenOfSpades, kingOfHearts],
      c.value ∈ pipValues ∨ c.value ∈ faceValues) ∧
    (handOf [tenOfSpades, kingOfHearts]).score =
      handTotal [tenOfSpades, kingOfHearts] :=
  ⟨by decide, hand_score_no_ace [tenOfSpades, kingOfHearts] (by decide)⟩

/-- C7: a hand holding exactly one ACE among standard non-ace cards of total
`s` scores `s + 11` when that fits in 21, and `s + 1` otherwise. -/
theorem hand_score_single_ace (pre post : List Card) (a : Card) (s : Int)
    (ha : a.value = "ACE")
    (hpre : ∀ c ∈ pre, c.value ∈ pipValues ∨ c.value ∈ faceValues)
    (hpost : ∀ c ∈ post, c.value ∈ pipValues ∨ c.value ∈ faceValues)
    (hs : handTotal pre + handTotal post = s) :
    (handOf (pre ++ a :: post)).score =
      if s + 11 ≤ 21 then s + 11 else s + 1 := by
  have hpreA : ∀ c ∈ pre, c.value ≠ "ACE" := fun c hc =>
    (hpre c hc).elim mem_pip_ne_ace mem_face_ne_ace
  have hpostA : ∀ c ∈ post, c.value ≠ "ACE" := fun c hc =>
    (hpost c hc).elim mem_pip_ne_ace mem_face_ne_ace
  have hbv : blackjackValue a.value = 11 := by rw [ha]; decide
  have htot : handTotal (pre ++ a :: post) = s + 11 := by
    have h1 : handTotal (a :: post) = 11 + handTotal post := by
      simp only [handTotal, List.map_cons, List.sum_cons, hbv]
    rw [handTotal_append, h1]
    omega
  have hace : hasAce (pre ++ a :: post) = true := by
    simp [hasAce_append, hasAce, ha]
  have hcount : countAces (pre ++ a :: post) = 1 := by
    rw [show a :: post = [a] ++ post from rfl, countAces_append, countAces_append,
      countAces_eq_zero hpreA, countAces_eq_zero hpostA]
    simp [countAces, ha]
  rw [handOf_score, computeScore_eq, htot, hace]
  simp only [eq_self_iff_true, true_and]
  by_cases h21 : s + 11 ≤ 21
  · have hc : ¬(s + 11 > 21) := by omega
    rw [if_neg hc, if_pos h21]
  · have hc : s + 11 > 21 := by omega
    rw [if_pos hc, if_neg h21,
      reduceAces_eq_count (pre ++ a :: post) (s + 11) hc, hcount]
    simp only [reduceAcesCount]
    rw [if_neg h21]
    omega

/-- C7 (witness): six, ACE, ten has non-ace total 16; 16 + 11 busts, so the
hand scores 17. -/
theorem hand_score_single_ace_witness :
    aceOfSpades.value = "ACE" ∧
    (∀ c ∈ [sixOfSpades], c.value ∈ pipValues ∨ c.value ∈ faceValues) ∧
    (∀ c ∈ [tenOfSpades], c.value ∈ pipValues ∨ c.value ∈ faceValues) ∧
    handTotal [sixOfSpades] + handTotal [tenOfSpades] = 16 ∧
    (handOf ([sixOfSpades] ++ aceOfSpades :: [tenOfSpades])).score =
      if (16 : Int) + 11 ≤ 21 then 16 + 11 else 16 + 1 :=
  ⟨by decide, by decide, by decide, by decide,
    hand_score_single_ace [sixOfSpades] [tenOfSpades] aceOfSpades 16
      (by decide) (by decide) (by decide) (by decide)⟩

/-- C8: after any sequence of `add_card` calls the stored score is a
non-negative integer, and every added card is kept: there is no capacity
limit or error condition. -/
theorem hand_score_nonneg_total (cards : List Card) :
    0 ≤ (handOf cards).score ∧ (handOf cards).cards = cards := by
  refine ⟨?_, handOf_cards cards⟩
  rw [handOf_score]
  exact computeScore_nonneg cards

/-- C9: the score of a hand depends only on the multiset of its cards; any
two draw orders of the same cards give the same score. -/
theorem hand_score_perm_invariant (cards1 cards2 : List Card)
    (h : cards1.Perm cards2) :
    (handOf cards1).score = (handOf cards2).score := by
  have htot : handTotal cards1 = handTotal cards2 := by
    unfold handTotal
    exact (h.map _).sum_eq
  have hcount : countAces cards1 = countAces cards2 := h.countP_eq _
  have hace : hasAce cards1 = hasAce cards2 := by
    have h1 := hasAce_iff_countAces (l := cards1)
    have h2 := hasAce_iff_countAces (l := cards2)
    cases hb1 : hasAce cards1 <;> cases hb2 : hasAce cards2 <;> simp_all
  rw [handOf_score, handOf_score, computeScore_eq, computeScore_eq]
  by_cases hcond : hasAce cards2 = true ∧ handTotal cards2 > 21
  · rw [htot, hace, if_pos hcond, if_pos hcond,
      reduceAces_eq_count cards1 (handTotal cards2) hcond.2,
      reduceAces_eq_count cards2 (handTotal cards2) hcond.2, hcount]
  · rw [htot, hace, if_neg hcond, if_neg hcond]

/-- C9 (witness): ACE then ten and ten then ACE both score 21. -/
theorem hand_score_perm_invariant_witness :
    ([aceOfSpades, tenOfSpades].Perm [tenOfSpades, aceOfSpades]) ∧
    (handOf [aceOfSpades, tenOfSpades]).score =
      (handOf [tenOfSpades, aceOfSpades]).score :=
  ⟨List.Perm.swap tenOfSpades aceOfSpades [],
    hand_score_perm_invariant [aceOfSpades, tenOfSpades]
      [tenOfSpades, aceOfSpades] (List.Perm.swap tenOfSpades aceOfSpades [])⟩

/-- C10: adding a card with an unrecognised value string appends it to the
hand, contributes 0, and leaves the score unchanged. -/
theorem add_card_unknown_value (cards : List Card) (c : Card)
    (hp : c.value ∉ pipValues) (hf : c.value ∉ faceValues)
    (ha : c.value ≠ "ACE") :
    ((handOf cards).add_card c).cards = cards ++ [c] ∧
    ((handOf cards).add_card c).score = (handOf cards).score := by
  have hbv : blackjackValue c.value = 0 := by simp [blackjackValue, hp, hf, ha]
  constructor
  · simp [Hand.add_card, handOf_cards]
  · have hgoal : ((handOf cards).add_card c).score =
        computeScore (cards ++ [c]) := by
      simp [Hand.add_card, handOf_cards]
    rw [hgoal, handOf_score]
    have htot : handTotal (cards ++ [c]) = handTotal cards := by
      rw [handTotal_append]
      simp [handTotal, hbv]
    have hace : hasAce (cards ++ [c]) = hasAce cards := by
      rw [hasAce_append]
      simp [hasAce, ha]
    have hcount : countAces (cards ++ [c]) = countAces cards := by
      rw [countAces_append]
      simp [countAces, ha]
    rw [computeScore_eq, computeScore_eq, htot, hace]
    by_cases hcond : hasAce cards = true ∧ handTotal cards > 21
    · rw [if_pos hcond, if_pos hcond,
        reduceAces_eq_count (cards ++ [c]) (handTotal cards) hcond.2,
        reduceAces_eq_count cards (handTotal cards) hcond.2, hcount]
    · rw [if_neg hcond, if_neg hcond]

/-- C10 (witness): adding a JOKER to ten, six keeps the score at 16. -/
theorem add_card_unknown_value_witness :
    (jokerCard.value ∉ pipValues) ∧ (jokerCard.value ∉ faceValues) ∧
    jokerCard.value ≠ "ACE" ∧
    ((handOf [tenOfSpades, sixOfSpades]).add_card jokerCard).cards =
      [tenOfSpades, sixOfSpades] ++ [jokerCard] ∧
    ((handOf [tenOfSpades, sixOfSpades]).add_card jokerCard).score =
      (handOf [tenOfSpades, sixOfSpades]).score :=
  ⟨by decide, by decide, by decide,
    (add_card_unknown_value [tenOfSpades, sixOfSpades] jokerCard
      (by decide) (by decide) (by decide)).1,
    (add_card_unknown_value [tenOfSpades, sixOfSpades] jokerCard
      (by decide) (by decide) (by decide)).2⟩

/-! ### Claim theorems: controller turns -/

/-- C2: in a dealer turn started with player score below 21, the dealer
draws while its score is below 21 and below the player score; once the loop
stops, the player-won notification fires exactly when the dealer busted and
the player-lost notification exactly when the dealer score lies in
[player score + 1, 21]. -/
theorem dealer_turn_loop_and_outcomes (dealer : Hand) (ps : Int)
    (deck : List Card) (d : Hand) (rest : List Card) (outs : List Outcome)
    (_hps : ps < 21)
    (h : dealer_plays dealer ps deck = some (d, rest, outs)) :
    (∀ c cs, deck = c :: cs → dealer.score < 21 → dealer.score < ps →
      dealer_plays dealer ps deck = dealer_plays (dealer.add_card c) ps cs) ∧
    ¬(d.score < 21 ∧ d.score < ps) ∧
    (Outcome.playerWon ∈ outs ↔ 21 < d.score) ∧
    (Outcome.playerLost ∈ outs ↔ ps + 1 ≤ d.score ∧ d.score ≤ 21) := by
  constructor
  · intro c cs hdeck h1 h2
    subst hdeck
    unfold dealer_plays
    rw [show dealerDraw ps dealer (c :: cs) =
        dealerDraw ps (dealer.add_card c) cs by simp [dealerDraw, h1, h2]]
  · unfold dealer_plays at h
    rcases hd : dealerDraw ps dealer deck with _ | ⟨d', rest'⟩ <;> rw [hd] at h
    · simp at h
    · simp only [Option.some.injEq, Prod.mk.injEq] at h
      obtain ⟨rfl, rfl, houts⟩ := h
      refine ⟨dealerDraw_post ps deck dealer d' rest' hd, ?_, ?_⟩
      · rw [← houts]
        by_cases h1 : d'.score > 21 <;>
          by_cases h2 : 21 ≥ d'.score ∧ d'.score > ps <;>
            simp [h1, h2]
      · rw [← houts]
        by_cases h1 : d'.score > 21 <;>
          by_cases h2 : 21 ≥ d'.score ∧ d'.score > ps <;>
            simp [h1, h2] <;> omega

/-- C2 (witness): dealer ten, six against player score 17 draws an ace,
stands at 17, and neither notification fires. -/
theorem dealer_turn_loop_and_outcomes_witness :
    (17 : Int) < 21 ∧
    dealer_plays dealerSixteen 17 [aceOfSpades] =
      some (dealerSeventeen, [], []) ∧
    ((∀ c cs, ([aceOfSpades] : List Card) = c :: cs →
        dealerSixteen.score < 21 → dealerSixteen.score < 17 →
        dealer_plays dealerSixteen 17 [aceOfSpades] =
          dealer_plays (dealerSixteen.add_card c) 17 cs) ∧
      ¬(dealerSeventeen.score < 21 ∧ dealerSeventeen.score < 17) ∧
      (Outcome.playerWon ∈ ([] : List Outcome) ↔ 21 < dealerSeventeen.score) ∧
      (Outcome.playerLost ∈ ([] : List Outcome) ↔
        17 + 1 ≤ dealerSeventeen.score ∧ dealerSeventeen.score ≤ 21)) :=
  ⟨by decide, by decide,
    dealer_turn_loop_and_outcomes dealerSixteen 17 [aceOfSpades]
      dealerSeventeen [] [] (by decide) (by decide)⟩

/-- C3: when the dealer turn ends with the dealer score equal to the player
score and at most 21, no notification at all is sent (the push case). -/
theorem dealer_push_no_notification (dealer : Hand) (ps : Int)
    (deck : List Card) (d : Hand) (rest : List Card) (outs : List Outcome)
    (h : dealer_plays dealer ps deck = some (d, rest, outs))
    (heq : d.score = ps) (hle : ps ≤ 21) :
    outs = [] := by
  unfold dealer_plays at h
  rcases hd : dealerDraw ps dealer deck with _ | ⟨d', rest'⟩ <;> rw [hd] at h
  · simp at h
  · simp only [Option.some.injEq, Prod.mk.injEq] at h
    obtain ⟨rfl, rfl, houts⟩ := h
    rw [← houts]
    have h1 : ¬(d'.score > 21) := by omega
    have h2 : ¬(21 ≥ d'.score ∧ d'.score > ps) := by omega
    rw [if_neg h1, if_neg h2]
    rfl

/-- C3 (witness): dealer ten, six against player score 17 draws an ace and
ends at 17 with an empty notification list. -/
theorem dealer_push_no_notification_witness :
    dealer_plays dealerSixteen 17 [aceOfSpades] =
      some (dealerSeventeen, [], []) ∧
    dealerSeventeen.score = 17 ∧ (17 : Int) ≤ 21 ∧
    ([] : List Outcome) = [] :=
  ⟨by decide, by decide, by decide,
    dealer_push_no_notification dealerSixteen 17 [aceOfSpades]
      dealerSeventeen [] [] (by decide) (by decide) (by decide)⟩

/-- C4: a player dealt 21 wins instantly: the game ends with exactly the
player-won notification, the player and dealer turns are skipped, and the
dealer hand keeps exactly its two dealt cards whatever they are. -/
theorem instant_win_skips_turns (p1 d1 p2 d2 : Card) (rest : List Card)
    (moves : List String) (h21 : (handOf [p1, p2]).score = 21) :
    newGame (p1 :: d1 :: p2 :: d2 :: rest) moves =
      some (handOf [p1, p2], handOf [d1, d2], [Outcome.playerWon]) ∧
    (handOf [d1, d2]).cards.length = 2 := by
  have hp : (Hand.empty.add_card p1).add_card p2 = handOf [p1, p2] := rfl
  have hd : (Hand.empty.add_card d1).add_card d2 = handOf [d1, d2] := rfl
  constructor
  · simp only [newGame, hp, hd, h21, lt_self_iff_false, if_false, if_pos]
  · rw [handOf_cards]
    rfl

/-- C4 (witness): player ACE, KING is 21; the dealer hand stays at its two
cards even though the remaining deck and moves are nonempty. -/
theorem instant_win_skips_turns_witness :
    (handOf [aceOfSpades, kingOfHearts]).score = 21 ∧
    newGame [aceOfSpades, twoOfClubs, kingOfHearts, sixOfSpades, tenOfSpades]
        ["H"] =
      some (handOf [aceOfSpades, kingOfHearts], handOf [twoOfClubs, sixOfSpades],
        [Outcome.playerWon]) ∧
    (handOf [twoOfClubs, sixOfSpades]).cards.length = 2 :=
  ⟨by decide,
    (instant_win_skips_turns aceOfSpades twoOfClubs kingOfHearts sixOfSpades
      [tenOfSpades] ["H"] (by decide)).1,
    (instant_win_skips_turns aceOfSpades twoOfClubs kingOfHearts sixOfSpades
      [tenOfSpades] ["H"] (by decide)).2⟩

/-- C5: whenever the player turn loop is entered with a score above 21, the
player-lost notification fires and the loop ends at once, consuming no move
and drawing no card. -/
theorem player_bust_immediate_loss (player : Hand) (deck : List Card)
    (moves : List String) (h : 21 < player.score) :
    player_plays player deck moves =
      some (player, deck, moves, [Outcome.playerLost]) := by
  cases moves with
  | nil => simp [player_plays, h]
  | cons m ms => simp [player_plays, h]

/-- C5 (witness): five fives score 25, so the player turn ends immediately
in a loss with the move list untouched. -/
theorem player_bust_immediate_loss_witness :
    (handOf fiveFivesList).score = 25 ∧
    (21 : Int) < (handOf fiveFivesList).score ∧
    player_plays (handOf fiveFivesList) [tenOfSpades] ["H"] =
      some (handOf fiveFivesList, [tenOfSpades], ["H"], [Outcome.playerLost]) :=
  ⟨by decide, by decide,
    player_bust_immediate_loss (handOf fiveFivesList) [tenOfSpades] ["H"]
      (by decide)⟩
